import Mathlib

/-!
A verification development for the telemetry storage and alerting engine of
the `altenia` repository.  The definitions below are a shallow embedding of
the repository's SQL schema, trigger code and lifecycle policies
(`src/backend/migrations/*.sql`) together with the engine behaviour the
schema implies; timestamps are seconds since an epoch (`Nat`), SQL
`DOUBLE PRECISION` values are modelled as rationals (`ℚ`), SQL `TEXT` as
`List Char`, and nullable columns as `Option`.
-/

namespace Altenia

/-! ## Telemetry streams and partition (chunk) geometry

From `008_create_logs.sql`, `013_create_metrics.sql`, `015_create_spans.sql`:
`create_hypertable('logs', 'timestamp', chunk_time_interval => INTERVAL '1 day')`,
`create_hypertable('metrics', 'timestamp', chunk_time_interval => INTERVAL '1 hour')`,
`create_hypertable('spans', 'start_time', chunk_time_interval => INTERVAL '1 day')`.
-/

/-- The three telemetry streams stored as hypertables. -/
inductive Stream where
  | logs
  | metrics
  | spans
deriving DecidableEq, Repr

/-- Seconds in one hour. -/
def hourSeconds : Nat := 3600

/-- Seconds in one day. -/
def daySeconds : Nat := 86400

/-- The `chunk_time_interval` passed to `create_hypertable` for each stream:
1 day for `logs`, 1 hour for `metrics`, 1 day for `spans`. -/
def chunkTimeInterval : Stream → Nat
  | .logs => daySeconds
  | .metrics => hourSeconds
  | .spans => daySeconds

/-- Start of the chunk covering timestamp `t` for stream `s`: chunks tile the
time axis in intervals of width `chunkTimeInterval s`. -/
def chunkStart (s : Stream) (t : Nat) : Nat :=
  t - t % chunkTimeInterval s

/-- Exclusive end of the chunk covering timestamp `t` for stream `s`. -/
def chunkEnd (s : Stream) (t : Nat) : Nat :=
  chunkStart s t + chunkTimeInterval s

/-- `ensurePartition stream project_id timestamp` returns the time range of
the chunk the record is routed to.  Hypertable chunks are global per table
(projects share chunks; `project_id` only segments compression), so the
returned range does not depend on the project. -/
def ensurePartition (s : Stream) (_project_id : List Char) (t : Nat) : Nat × Nat :=
  (chunkStart s t, chunkEnd s t)

/-! ## Log insert notification (C9)

From `009_create_log_notify.sql`: the trigger function `notify_new_log`
performs `pg_notify('new_log', json_build_object('project_id', NEW.project_id,
'id', NEW.id, 'level', NEW.level, 'message', LEFT(NEW.message, 200),
'timestamp', NEW.timestamp, 'source', NEW.source))` and then `RETURN NEW`;
the trigger `logs_notify_trigger` runs `AFTER INSERT ON logs FOR EACH ROW`.
-/

/-- A row of the `logs` table (`008_create_logs.sql`). -/
structure LogRecord where
  id : List Char
  project_id : List Char
  level : List Char
  message : List Char
  timestamp : Nat
  received_at : Nat
  source : Option (List Char)
  metadata : Option (List Char)
  trace_id : Option (List Char)
  span_id : Option (List Char)
deriving DecidableEq, Repr

/-- The payload the trigger builds with `json_build_object`; `LEFT(m, 200)`
is the first 200 characters of `m`. -/
structure NotifyPayload where
  channel : List Char
  project_id : List Char
  id : List Char
  level : List Char
  message : List Char
  timestamp : Nat
  source : Option (List Char)
deriving DecidableEq, Repr

/-- The `pg_notify('new_log', ...)` payload `notify_new_log` emits for the
inserted row `NEW`. -/
def notify_new_log (new : LogRecord) : NotifyPayload :=
  { channel := [ 'n', 'e', 'w', '_', 'l', 'o', 'g' ]
    project_id := new.project_id
    id := new.id
    level := new.level
    message := new.message.take 200
    timestamp := new.timestamp
    source := new.source }

/-- Inserting a log row: the row is appended to the table and, after the
insert, `logs_notify_trigger` fires `notify_new_log` once for the row
(`FOR EACH ROW`); the trigger returns `NEW` unchanged, so the stored row is
the inserted one.  The result pairs the new table state with the list of
notifications emitted by the statement. -/
def insertLog (table : List LogRecord) (r : LogRecord) :
    List LogRecord × List NotifyPayload :=
  (table ++ [r], [notify_new_log r])

/-! ## Metric records and rollup aggregates (C2, C4, C5, C8)

From `013_create_metrics.sql`: the `metrics` table with
`metric_type CHECK (metric_type IN ('counter', 'gauge', 'histogram'))` and
nullable histogram columns, and from `014_create_metrics_aggregates.sql`: the
continuous aggregates `metrics_1m` / `metrics_1h` / `metrics_1d`, each defined
as `SELECT project_id, name, metric_type, time_bucket(w, timestamp) AS bucket,
AVG(value), MIN(value), MAX(value), SUM(value), COUNT(*) FROM metrics GROUP BY
project_id, name, metric_type, bucket` — each querying the raw `metrics`
hypertable directly.
-/

/-- The metric types admitted by the `CHECK` constraint on `metric_type`. -/
inductive MetricType where
  | counter
  | gauge
  | histogram
deriving DecidableEq, Repr

/-- A row of the raw `metrics` table. -/
structure MetricRecord where
  id : List Char
  project_id : List Char
  name : List Char
  metric_type : MetricType
  value : ℚ
  timestamp : Nat
  received_at : Nat
  unit : Option (List Char)
  description : Option (List Char)
  tags : List (List Char × List Char)
  bucket_bounds : Option (List ℚ)
  bucket_counts : Option (List Nat)
  histogram_sum : Option ℚ
  histogram_count : Option Nat
  histogram_min : Option ℚ
  histogram_max : Option ℚ
  trace_id : Option (List Char)
  span_id : Option (List Char)
deriving DecidableEq, Repr

/-- `time_bucket(res, t)`: the start of the width-`res` bucket containing
`t`. -/
def time_bucket (res : Nat) (t : Nat) : Nat :=
  t - t % res

/-- The `GROUP BY` key of the continuous aggregates:
`(project_id, name, metric_type, bucket)`. -/
structure AggKey where
  project_id : List Char
  name : List Char
  metric_type : MetricType
  bucket : Nat
deriving DecidableEq, Repr

/-- An aggregate row of `metrics_1m` / `metrics_1h` / `metrics_1d`. -/
structure AggRow where
  avg_value : ℚ
  min_value : ℚ
  max_value : ℚ
  sum_value : ℚ
  sample_count : Nat
deriving DecidableEq, Repr

/-- The raw rows falling in group `k` at resolution `res`: same
`project_id`, `name`, `metric_type`, and `time_bucket(res, timestamp) =
k.bucket`. -/
def bucketRows (res : Nat) (raw : List MetricRecord) (k : AggKey) :
    List MetricRecord :=
  raw.filter fun r =>
    decide (r.project_id = k.project_id ∧ r.name = k.name ∧
      r.metric_type = k.metric_type ∧ time_bucket res r.timestamp = k.bucket)

/-- The `value` column of the rows in group `k`. -/
def bucketValues (res : Nat) (raw : List MetricRecord) (k : AggKey) :
    List ℚ :=
  (bucketRows res raw k).map (·.value)

/-- The aggregate row the `GROUP BY` query produces for key `k` (SQL emits a
row only for keys with at least one raw row; `AVG` is `SUM/COUNT`, `MIN` and
`MAX` are the group extrema, `COUNT(*)` the group size). -/
def rollupRow (res : Nat) (raw : List MetricRecord) (k : AggKey) :
    Option AggRow :=
  match bucketValues res raw k with
  | [] => none
  | v :: vs =>
      some
        { avg_value := (v :: vs).sum / ((v :: vs).length : ℚ)
          min_value := vs.foldl min v
          max_value := vs.foldl max v
          sum_value := (v :: vs).sum
          sample_count := (v :: vs).length }

/-- The `metrics_1m` view: 1-minute rollups computed from the raw `metrics`
table. -/
def metrics_1m (raw : List MetricRecord) (k : AggKey) : Option AggRow :=
  rollupRow 60 raw k

/-- The `metrics_1h` view: 1-hour rollups computed from the raw `metrics`
table (`FROM metrics`, not from `metrics_1m`). -/
def metrics_1h (raw : List MetricRecord) (k : AggKey) : Option AggRow :=
  rollupRow 3600 raw k

/-- The `metrics_1d` view: 1-day rollups computed from the raw `metrics`
table (`FROM metrics`, not from `metrics_1h`). -/
def metrics_1d (raw : List MetricRecord) (k : AggKey) : Option AggRow :=
  rollupRow 86400 raw k

/-- A raw metric record carrying only a value and a timestamp, used to build
concrete instances. -/
def sampleMetric (v : ℚ) (t : Nat) : MetricRecord :=
  { id := [], project_id := [ 'p' ], name := [ 'm' ], metric_type := .gauge
    value := v, timestamp := t, received_at := t
    unit := none, description := none, tags := []
    bucket_bounds := none, bucket_counts := none, histogram_sum := none
    histogram_count := none, histogram_min := none, histogram_max := none
    trace_id := none, span_id := none }

/-- A two-sample raw metrics table: values 1 and 3 at timestamps 10 and 20. -/
def rawSample : List MetricRecord := [sampleMetric 1 10, sampleMetric 3 20]

/-- The group key of `rawSample` in the 1-hour bucket starting at 0. -/
def keySample : AggKey := ⟨[ 'p' ], [ 'm' ], .gauge, 0⟩

/-! ## Rollup refresh, finalization and backfill (C4, C5)

The repository declares the refresh behaviour only through
`add_continuous_aggregate_policy` in `014_create_metrics_aggregates.sql`:
`metrics_1m` with `start_offset => INTERVAL '1 hour'`, `metrics_1h` with
`start_offset => INTERVAL '1 day'`, `metrics_1d` with
`start_offset => INTERVAL '7 days'` (and `end_offset` of one bucket each).
The refresh cycle itself is not code under `src/`, so it is modelled from the
spec below.
-/

/-- The three rollup resolutions. -/
inductive Resolution where
  | oneMinute
  | oneHour
  | oneDay
deriving DecidableEq, Repr

/-- Bucket width in seconds of each resolution. -/
def resolutionSeconds : Resolution → Nat
  | .oneMinute => 60
  | .oneHour => hourSeconds
  | .oneDay => daySeconds

/-- The `start_offset` of each resolution's
`add_continuous_aggregate_policy`: 1 hour, 1 day, 7 days.  This is the
staleness margin (lag tolerance) beyond which a bucket is no longer
refreshed. -/
def startOffset : Resolution → Nat
  | .oneMinute => hourSeconds
  | .oneHour => daySeconds
  | .oneDay => 7 * daySeconds

/-- The `end_offset` of each resolution's policy: one bucket width. -/
def endOffset : Resolution → Nat
  | .oneMinute => 60
  | .oneHour => hourSeconds
  | .oneDay => daySeconds

/-- Modelled from the spec: a bucket is finalized once
`now - bucket_end > lag_tolerance`; the lag tolerance of a resolution is its
policy's `start_offset`.  (The rollup scheduler itself is not under `src/`;
only the policy declarations are.) -/
def finalized (res : Resolution) (bucketEnd now : Nat) : Bool :=
  decide (startOffset res < now - bucketEnd)

/-- Modelled from the spec: one refresh of a single bucket overwrites the
bucket's aggregate row with the rollup computed from raw data.  (The
materialization step is not under `src/`; only the
`add_continuous_aggregate_policy` declarations are.) -/
def refreshBucket (res : Resolution) (raw : List MetricRecord)
    (state : AggKey → Option AggRow) (k : AggKey) :
    AggKey → Option AggRow :=
  fun k2 =>
    if k2 = k then rollupRow (resolutionSeconds res) raw k2 else state k2

/-- Modelled from the spec: one scheduled rollup cycle at time `now`
refreshes a bucket only when it is inside the policy's refresh window —
neither finalized (older than `start_offset`) nor more recent than
`end_offset`; finalized buckets keep their stored row. -/
def rollupCycle (res : Resolution) (raw : List MetricRecord) (now : Nat)
    (state : AggKey → Option AggRow) : AggKey → Option AggRow :=
  fun k =>
    if finalized res (k.bucket + resolutionSeconds res) now then state k
    else if now < k.bucket + resolutionSeconds res + endOffset res then
      state k
    else rollupRow (resolutionSeconds res) raw k

/-- Modelled from the spec: explicit backfill recomputes the requested
bucket from raw data regardless of finalization. -/
def backfill (res : Resolution) (raw : List MetricRecord)
    (state : AggKey → Option AggRow) (k : AggKey) :
    AggKey → Option AggRow :=
  fun k2 =>
    if k2 = k then rollupRow (resolutionSeconds res) raw k2 else state k2

/-! ## Metric record validation and ingestion (C8)

The `metrics` table (`013_create_metrics.sql`) declares the histogram
columns nullable, with the comment "Histogram-specific fields (NULL for
counter/gauge)"; the Ingestion Writer that validates records before insert
is not code under `src/`, so its per-record validation is modelled from the
spec.
-/

/-- Whether any of the six histogram columns of a metric row is non-NULL. -/
def histogramFieldsPopulated (r : MetricRecord) : Bool :=
  r.bucket_bounds.isSome || r.bucket_counts.isSome ||
    r.histogram_sum.isSome || r.histogram_count.isSome ||
    r.histogram_min.isSome || r.histogram_max.isSome

/-- Modelled from the spec: the Ingestion Writer's per-record shape check for
metric records (the writer itself is not under `src/`; only the `metrics`
schema is).  Histogram fields are populated only when `type = Histogram`,
and when populated `bucket_bounds.length == bucket_counts.length` and
`sum(bucket_counts) == count`. -/
def validMetricRecord (r : MetricRecord) : Bool :=
  match r.metric_type with
  | .histogram =>
      !histogramFieldsPopulated r ||
        (match r.bucket_bounds, r.bucket_counts, r.histogram_sum,
            r.histogram_count, r.histogram_min, r.histogram_max with
         | some bb, some bc, some _, some c, some _, some _ =>
             decide (bb.length = bc.length ∧ bc.sum = c)
         | _, _, _, _, _, _ => false)
  | _ => !histogramFieldsPopulated r

/-- Modelled from the spec: batch metric ingestion stores exactly the
records passing per-record validation and reports the indices of the
rejected ones (a batch partially succeeds). -/
def ingestMetrics (table : List MetricRecord) (batch : List MetricRecord) :
    List MetricRecord × List Nat :=
  (table ++ batch.filter validMetricRecord,
   (batch.enum.filter fun p => !validMetricRecord p.2).map (·.1))

/-- A valid histogram metric record: bounds `[1, 2]`, counts `[3, 4]`,
`count = 7`. -/
def histogramSample : MetricRecord :=
  { sampleMetric 0 0 with
      metric_type := .histogram
      bucket_bounds := some [1, 2]
      bucket_counts := some [3, 4]
      histogram_sum := some 9
      histogram_count := some 7
      histogram_min := some 1
      histogram_max := some 2 }

/-! ## Project retention settings (C10)

From `005_create_projects.sql`, `012_add_retention_columns.sql` and the
rename migration: the `projects` table has
`logs_retention_days INTEGER NOT NULL DEFAULT 30 CHECK (>= 1 AND <= 365)`
(created as `retention_days`, later renamed),
`metrics_retention_days INTEGER NOT NULL DEFAULT 90 CHECK (>= 1 AND <= 365)`,
`traces_retention_days INTEGER NOT NULL DEFAULT 14 CHECK (>= 1 AND <= 90)`.
A SQL `CHECK` constraint rejects any `INSERT` or `UPDATE` whose new row
violates it, leaving the table unchanged.
-/

/-- A row of the `projects` table, restricted to the columns relevant to
retention. -/
structure Project where
  id : List Char
  organization_id : List Char
  name : List Char
  logs_retention_days : Int
  metrics_retention_days : Int
  traces_retention_days : Int
deriving DecidableEq, Repr

/-- The conjunction of the three retention `CHECK` constraints, as a check on
the would-be column values. -/
def retentionValuesOk (l m t : Int) : Bool :=
  (1 ≤ l && l ≤ 365) && (1 ≤ m && m ≤ 365) && (1 ≤ t && t ≤ 90)

/-- The retention `CHECK` constraints evaluated on a row. -/
def retentionCheck (p : Project) : Bool :=
  retentionValuesOk p.logs_retention_days p.metrics_retention_days
    p.traces_retention_days

/-- A project row built with the column defaults
(`DEFAULT 30` / `DEFAULT 90` / `DEFAULT 14`). -/
def defaultProject (pid oid nm : List Char) : Project :=
  { id := pid, organization_id := oid, name := nm
    logs_retention_days := 30
    metrics_retention_days := 90
    traces_retention_days := 14 }

/-- `INSERT INTO projects`: the row is appended when it passes the `CHECK`
constraints, otherwise the statement fails and the table is unchanged.  The
`Bool` reports success. -/
def insertProject (tbl : List Project) (p : Project) : List Project × Bool :=
  if retentionCheck p then (tbl ++ [p], true) else (tbl, false)

/-- `UPDATE projects SET logs_retention_days = l, metrics_retention_days = m,
traces_retention_days = t WHERE id = pid`: applied when the new values pass
the `CHECK` constraints, otherwise the statement fails and the table is
unchanged. -/
def updateProjectRetention (tbl : List Project) (pid : List Char)
    (l m t : Int) : List Project × Bool :=
  if retentionValuesOk l m t then
    (tbl.map fun p =>
      if p.id = pid then
        { p with logs_retention_days := l, metrics_retention_days := m
                 traces_retention_days := t }
      else p, true)
  else (tbl, false)

/-! ## Partition lifecycle maintenance (C3, C6)

The compression grace periods come from the `add_compression_policy` calls:
`('logs', INTERVAL '7 days')`, `('metrics', INTERVAL '1 day')`,
`('spans', INTERVAL '3 days')`; the per-project retention day-counts come
from the `projects` columns.  The maintenance cycle that applies them is not
code under `src/` (no retention policy or maintenance job appears in the
migrations), so it is modelled from the spec.
-/

/-- A time-bounded partition of one stream for one project scope. -/
structure Partition where
  stream : Stream
  project_id : List Char
  startTime : Nat
  endTime : Nat
  compressed : Bool
deriving DecidableEq, Repr

/-- The project's retention setting for a stream, in days. -/
def retentionDaysFor (p : Project) : Stream → Int
  | .logs => p.logs_retention_days
  | .metrics => p.metrics_retention_days
  | .spans => p.traces_retention_days

/-- The compression grace period of each stream, from
`add_compression_policy`: 7 days for `logs`, 1 day for `metrics`, 3 days for
`spans`. -/
def graceSeconds : Stream → Nat
  | .logs => 7 * daySeconds
  | .metrics => daySeconds
  | .spans => 3 * daySeconds

/-- Modelled from the spec: a partition is past retention at time `now` when
its upper time bound is more than the owning project's per-stream
`retention_days` in the past. -/
def pastRetention (projects : List Project) (now : Nat)
    (part : Partition) : Bool :=
  match projects.find? (fun p => p.id = part.project_id) with
  | some p =>
      decide ((part.endTime : Int) +
        retentionDaysFor p part.stream * (daySeconds : Int) < (now : Int))
  | none => false

/-- Modelled from the spec: the compression step of one maintenance cycle on
a single partition — a partition older than its stream's grace period and
not yet compressed is marked compressed; anything else is left alone. -/
def compressOne (now : Nat) (p : Partition) : Partition :=
  if !p.compressed && decide (p.endTime + graceSeconds p.stream < now) then
    { p with compressed := true }
  else p

/-- Modelled from the spec: the maintenance cycle at time `now` marks
overdue partitions compressed and then deletes every partition past its
project's retention window; the surviving list is what queries see. -/
def runMaintenance (projects : List Project) (now : Nat)
    (parts : List Partition) : List Partition :=
  ((parts.map (compressOne now)).filter
    fun p => !pastRetention projects now p)

/-- An expired logs partition of project `p`: its upper bound `daySeconds`
is 30 retention-days in the past at the witness time. -/
def expiredPartSample : Partition :=
  { stream := .logs, project_id := [ 'p' ], startTime := 0
    endTime := daySeconds, compressed := false }

/-- A project row named `p` with the default retention settings. -/
def projectSample : Project := defaultProject [ 'p' ] [ 'o' ] [ 'p' ]

/-! ## Alert rule evaluation (C1)

The schema is `005_create_projects.sql`: `alert_rules` with
`threshold_value`, `threshold_operator IN ('gt', 'gte', 'lt', 'lte')` and
`is_enabled`, and `alerts` with `status IN ('firing', 'resolved')`,
`triggered_at`, `resolved_at`, `trigger_value`.  The evaluator itself is not
code under `src/`, so its transition logic is modelled from the spec.
-/

/-- The two alert statuses stored in `alerts.status`. -/
inductive AlertStatus where
  | firing
  | resolved
deriving DecidableEq, Repr

/-- The four comparison operators stored in
`alert_rules.threshold_operator`. -/
inductive ThresholdOp where
  | gt
  | gte
  | lt
  | lte
deriving DecidableEq, Repr

/-- The operator truth table: `gt: value > threshold`,
`gte: value >= threshold`, `lt: value < threshold`,
`lte: value <= threshold`. -/
def condHolds : ThresholdOp → ℚ → ℚ → Bool
  | .gt, v, t => decide (t < v)
  | .gte, v, t => decide (t ≤ v)
  | .lt, v, t => decide (v < t)
  | .lte, v, t => decide (v ≤ t)

/-- A row of `alert_rules`, restricted to the columns the evaluator reads. -/
structure AlertRule where
  id : List Char
  rule_type : List Char
  threshold_value : ℚ
  threshold_operator : ThresholdOp
  time_window_seconds : Nat
  is_enabled : Bool
deriving DecidableEq, Repr

/-- A row of the `alerts` table. -/
structure Alert where
  rule_id : List Char
  status : AlertStatus
  triggered_at : Nat
  resolved_at : Option Nat
  trigger_value : ℚ
deriving DecidableEq, Repr

/-- A notification enqueued for the rule's channels. -/
structure Notification where
  rule_id : List Char
  status : AlertStatus
  value : ℚ
deriving DecidableEq, Repr

/-- The evaluator-visible state: the `alerts` table and the notifications
sent so far. -/
structure EvalState where
  alerts : List Alert
  notifications : List Notification
deriving DecidableEq, Repr

/-- Whether an alert row is an open Firing alert of rule `rid`. -/
def isOpenFiring (rid : List Char) (a : Alert) : Bool :=
  decide (a.rule_id = rid) && decide (a.status = .firing)

/-- The open Firing alert of rule `rid`, when one exists. -/
def openFiring (rid : List Char) (alerts : List Alert) : Option Alert :=
  alerts.find? (isOpenFiring rid)

/-- The number of open Firing alert rows of rule `rid`. -/
def firingCount (rid : List Char) (alerts : List Alert) : Nat :=
  (alerts.filter (isOpenFiring rid)).length

/-- Modelled from the spec: one evaluation of a rule against the computed
`value` at time `now` (the evaluator is not under `src/`; only the
`alert_rules` and `alerts` schema is).  Condition holds and no open Firing
alert exists — create a Firing alert recording `trigger_value` and notify;
condition holds and one exists — no new row, no duplicate notification;
condition stops holding and one exists — transition it to Resolved, record
`resolved_at`, notify; otherwise no-op.  Disabled rules are not
evaluated. -/
def evaluateRule (rule : AlertRule) (value : ℚ) (now : Nat)
    (st : EvalState) : EvalState :=
  if !rule.is_enabled then st
  else if condHolds rule.threshold_operator value rule.threshold_value then
    match openFiring rule.id st.alerts with
    | some _ => st
    | none =>
        { alerts := st.alerts ++ [⟨rule.id, .firing, now, none, value⟩]
          notifications := st.notifications ++ [⟨rule.id, .firing, value⟩] }
  else
    match openFiring rule.id st.alerts with
    | some _ =>
        { alerts := st.alerts.map fun a =>
            if isOpenFiring rule.id a then
              { a with status := .resolved, resolved_at := some now }
            else a
          notifications := st.notifications ++ [⟨rule.id, .resolved, value⟩] }
    | none => st

/-- Evaluate the rule on a sequence of computed values at consecutive
times. -/
def evalSeq (rule : AlertRule) (now : Nat) (st : EvalState) :
    List ℚ → EvalState
  | [] => st
  | v :: vs => evalSeq rule (now + 1) (evaluateRule rule v now st) vs

/-- An enabled `log_count` rule with `threshold_operator = gt`,
`threshold_value = 10`. -/
def gtRuleSample : AlertRule :=
  { id := [ 'r' ]
    rule_type := [ 'l', 'o', 'g', '_', 'c', 'o', 'u', 'n', 't' ]
    threshold_value := 10
    threshold_operator := .gt
    time_window_seconds := 300
    is_enabled := true }

/-! ## Theorems -/

theorem chunkTimeInterval_pos (s : Stream) : 0 < chunkTimeInterval s := by
  cases s <;> simp [chunkTimeInterval, daySeconds, hourSeconds]

theorem chunkStart_le (s : Stream) (t : Nat) : chunkStart s t ≤ t :=
  Nat.sub_le _ _

theorem lt_chunkEnd (s : Stream) (t : Nat) : t < chunkEnd s t := by
  have hmod : t % chunkTimeInterval s < chunkTimeInterval s :=
    Nat.mod_lt _ (chunkTimeInterval_pos s)
  have hle : t % chunkTimeInterval s ≤ t := Nat.mod_le _ _
  unfold chunkEnd chunkStart
  omega

/-- C7: every partition created for the log or span streams covers a 1-day
interval and every partition for the metric stream covers a 1-hour interval;
the width depends only on the stream — for every project and timestamp the
chunk returned by `ensurePartition` covers the timestamp and has exactly the
stream's width. -/
theorem partition_width_determined_by_stream (pid : List Char) (t : Nat) :
    (∀ s : Stream, (ensurePartition s pid t).1 ≤ t ∧ t < (ensurePartition s pid t).2 ∧
      (ensurePartition s pid t).2 - (ensurePartition s pid t).1 = chunkTimeInterval s) ∧
    chunkTimeInterval .logs = daySeconds ∧
    chunkTimeInterval .spans = daySeconds ∧
    chunkTimeInterval .metrics = hourSeconds := by
  refine ⟨?_, rfl, rfl, rfl⟩
  intro s
  refine ⟨chunkStart_le s t, lt_chunkEnd s t, ?_⟩
  simp [ensurePartition, chunkEnd]

/-- C9: every successful insert of a log record emits exactly one `new_log`
notification, the payload carries the project id and the message truncated to
at most 200 characters, and the stored row is the inserted row unchanged
(the table after the insert is the table before with exactly `r` appended). -/
theorem insertLog_notifies_once_and_stores_unchanged
    (table : List LogRecord) (r : LogRecord) :
    (insertLog table r).1 = table ++ [r] ∧
    (insertLog table r).2.length = 1 ∧
    ∀ p ∈ (insertLog table r).2,
      p.channel = [ 'n', 'e', 'w', '_', 'l', 'o', 'g' ] ∧
      p.project_id = r.project_id ∧
      p.message = r.message.take 200 ∧
      p.message.length ≤ 200 := by
  refine ⟨rfl, rfl, ?_⟩
  intro p hp
  simp only [insertLog, List.mem_singleton] at hp
  subst hp
  refine ⟨rfl, rfl, rfl, ?_⟩
  simp [notify_new_log, List.length_take_le 200 r.message]

theorem foldl_min_mem (v : ℚ) (l : List ℚ) : l.foldl min v ∈ v :: l := by
  induction l generalizing v with
  | nil => simp
  | cons a l ih =>
      simp only [List.foldl_cons]
      have h := ih (min v a)
      simp only [List.mem_cons] at h ⊢
      rcases h with h | h
      · rcases min_choice v a with hm | hm
        · left; rw [h, hm]
        · right; left; rw [h, hm]
      · right; right; exact h

theorem foldl_min_le (v : ℚ) (l : List ℚ) :
    ∀ x ∈ v :: l, l.foldl min v ≤ x := by
  induction l generalizing v with
  | nil => intro x hx; simp at hx; simp [hx]
  | cons a l ih =>
      intro x hx
      simp only [List.mem_cons] at hx
      have hv : l.foldl min (min v a) ≤ min v a :=
        ih (min v a) (min v a) (by simp)
      rcases hx with rfl | rfl | hx
      · exact le_trans hv (min_le_left _ _)
      · exact le_trans hv (min_le_right _ _)
      · exact ih (min v a) x (by simp [hx])

theorem foldl_max_mem (v : ℚ) (l : List ℚ) : l.foldl max v ∈ v :: l := by
  induction l generalizing v with
  | nil => simp
  | cons a l ih =>
      simp only [List.foldl_cons]
      have h := ih (max v a)
      simp only [List.mem_cons] at h ⊢
      rcases h with h | h
      · rcases max_choice v a with hm | hm
        · left; rw [h, hm]
        · right; left; rw [h, hm]
      · right; right; exact h

theorem le_foldl_max (v : ℚ) (l : List ℚ) :
    ∀ x ∈ v :: l, x ≤ l.foldl max v := by
  induction l generalizing v with
  | nil => intro x hx; simp at hx; simp [hx]
  | cons a l ih =>
      intro x hx
      simp only [List.mem_cons] at hx
      have hv : max v a ≤ l.foldl max (max v a) :=
        ih (max v a) (max v a) (by simp)
      rcases hx with rfl | rfl | hx
      · exact le_trans (le_max_left _ _) hv
      · exact le_trans (le_max_right _ _) hv
      · exact ih (max v a) x (by simp [hx])

theorem time_bucket_mod (res t : Nat) : time_bucket res t % res = 0 := by
  unfold time_bucket
  have hdm := Nat.div_add_mod t res
  have h : t - t % res = res * (t / res) := by omega
  rw [h, Nat.mul_mod_right]

theorem time_bucket_eq_iff (res t b : Nat) (hres : 0 < res)
    (hb : b % res = 0) : time_bucket res t = b ↔ (b ≤ t ∧ t < b + res) := by
  constructor
  · rintro rfl
    have hmod : t % res < res := Nat.mod_lt _ hres
    have hle : t % res ≤ t := Nat.mod_le _ _
    unfold time_bucket
    omega
  · rintro ⟨h1, h2⟩
    obtain ⟨q, rfl⟩ := Nat.dvd_of_mod_eq_zero hb
    have ht : t = res * q + (t - res * q) := by omega
    have hd : t % res = t - res * q := by
      calc t % res = (res * q + (t - res * q)) % res := by rw [← ht]
        _ = (t - res * q) % res := by rw [Nat.mul_add_mod]
        _ = t - res * q := Nat.mod_eq_of_lt (by omega)
    unfold time_bucket
    omega

/-- C2: an aggregate row at any resolution is computed directly from the raw
records whose timestamp falls in the bucket: the three views all query the
same raw table (1-hour and 1-day are not cascaded from 1-minute), `count` is
the number of raw samples in the bucket, `sum` their exact sum, `avg` is
`sum/count`, `min`/`max` are attained extrema, and the bucket's rows are
exactly the raw rows with matching key whose timestamp lies in
`[bucket, bucket + res)`. -/
theorem rollup_bucket_correct (res : Nat) (raw : List MetricRecord)
    (k : AggKey) (a : AggRow) (hres : 0 < res)
    (h : rollupRow res raw k = some a) :
    metrics_1m raw k = rollupRow 60 raw k ∧
    metrics_1h raw k = rollupRow 3600 raw k ∧
    metrics_1d raw k = rollupRow 86400 raw k ∧
    a.sample_count = (bucketValues res raw k).length ∧
    a.sum_value = (bucketValues res raw k).sum ∧
    a.avg_value = a.sum_value / (a.sample_count : ℚ) ∧
    a.min_value ∈ bucketValues res raw k ∧
    (∀ v ∈ bucketValues res raw k, a.min_value ≤ v) ∧
    a.max_value ∈ bucketValues res raw k ∧
    (∀ v ∈ bucketValues res raw k, v ≤ a.max_value) ∧
    (∀ r, r ∈ bucketRows res raw k ↔
      (r ∈ raw ∧ r.project_id = k.project_id ∧ r.name = k.name ∧
       r.metric_type = k.metric_type ∧
       k.bucket ≤ r.timestamp ∧ r.timestamp < k.bucket + res)) := by
  refine ⟨rfl, rfl, rfl, ?_⟩
  unfold rollupRow at h
  cases hv : bucketValues res raw k with
  | nil => rw [hv] at h; exact absurd h (by simp)
  | cons v vs =>
      rw [hv] at h
      simp only [Option.some.injEq] at h
      subst h
      have halign : k.bucket % res = 0 := by
        have hne : bucketRows res raw k ≠ [] := by
          intro hnil
          rw [bucketValues, hnil] at hv
          exact absurd hv (by simp)
        obtain ⟨r0, hr0⟩ := List.exists_mem_of_ne_nil _ hne
        have := (List.mem_filter.mp hr0).2
        simp only [decide_eq_true_eq] at this
        rw [← this.2.2.2]
        exact time_bucket_mod res r0.timestamp
      refine ⟨rfl, rfl, rfl, foldl_min_mem v vs, foldl_min_le v vs,
        foldl_max_mem v vs, le_foldl_max v vs, ?_⟩
      intro r
      rw [bucketRows, List.mem_filter]
      simp only [decide_eq_true_eq]
      constructor
      · rintro ⟨hmem, h1, h2, h3, h4⟩
        refine ⟨hmem, h1, h2, h3, ?_⟩
        exact (time_bucket_eq_iff res r.timestamp k.bucket hres halign).mp h4
      · rintro ⟨hmem, h1, h2, h3, h4, h5⟩
        refine ⟨hmem, h1, h2, h3, ?_⟩
        exact (time_bucket_eq_iff res r.timestamp k.bucket hres halign).mpr ⟨h4, h5⟩

/-- Concrete instance of `rollup_bucket_correct`: the hour bucket over
`rawSample` aggregates to `avg = 2 = 4 / 2`. -/
theorem rollup_bucket_correct_witness :
    (⟨2, 1, 3, 4, 2⟩ : AggRow).avg_value =
      (⟨2, 1, 3, 4, 2⟩ : AggRow).sum_value /
        ((⟨2, 1, 3, 4, 2⟩ : AggRow).sample_count : ℚ) :=
  (rollup_bucket_correct 3600 rawSample keySample ⟨2, 1, 3, 4, 2⟩
    (by decide)
    (by norm_num [rollupRow, bucketValues, bucketRows, rawSample,
      sampleMetric, keySample, time_bucket])).2.2.2.2.2.1

/-- C4: once `now - bucket_end` exceeds the resolution's staleness margin
(its policy's `start_offset`) the bucket is finalized, every rollup cycle
leaves its stored row unchanged, and only explicit backfill recomputes it;
the margins are 1 hour, 1 day and 7 days for the three resolutions. -/
theorem finalized_bucket_skipped (res : Resolution)
    (raw : List MetricRecord) (now : Nat)
    (state : AggKey → Option AggRow) (k : AggKey)
    (h : startOffset res < now - (k.bucket + resolutionSeconds res)) :
    finalized res (k.bucket + resolutionSeconds res) now = true ∧
    rollupCycle res raw now state k = state k ∧
    backfill res raw state k k = rollupRow (resolutionSeconds res) raw k ∧
    startOffset .oneMinute = hourSeconds ∧
    startOffset .oneHour = daySeconds ∧
    startOffset .oneDay = 7 * daySeconds := by
  have hfin : finalized res (k.bucket + resolutionSeconds res) now = true := by
    simpa [finalized] using h
  refine ⟨hfin, ?_, ?_, rfl, rfl, rfl⟩
  · unfold rollupCycle
    rw [if_pos hfin]
  · unfold backfill
    rw [if_pos rfl]

/-- Concrete instance of `finalized_bucket_skipped`: the 1-minute bucket
starting at 0 is finalized at `now = 7200` and the cycle keeps its stored
row. -/
theorem finalized_bucket_skipped_witness :
    rollupCycle .oneMinute [] 7200 (fun _ => none) keySample =
      (fun _ => none : AggKey → Option AggRow) keySample :=
  (finalized_bucket_skipped .oneMinute [] 7200 (fun _ => none) keySample
    (by decide)).2.1

/-- C5: refreshing a non-finalized bucket overwrites its aggregate row — the
refreshed row is the rollup of the raw data alone, independent of the
previous stored row, and refreshing the same bucket twice over unchanged raw
data yields the identical aggregate state. -/
theorem refresh_bucket_idempotent (res : Resolution)
    (raw : List MetricRecord) (state : AggKey → Option AggRow) (k : AggKey) :
    refreshBucket res raw (refreshBucket res raw state k) k =
      refreshBucket res raw state k ∧
    refreshBucket res raw state k k = rollupRow (resolutionSeconds res) raw k ∧
    (∀ state2 : AggKey → Option AggRow,
      refreshBucket res raw state k k = refreshBucket res raw state2 k k) := by
  refine ⟨?_, ?_, ?_⟩
  · funext k2
    unfold refreshBucket
    by_cases hk : k2 = k
    · rw [if_pos hk, if_pos hk]
    · rw [if_neg hk, if_neg hk]
  · unfold refreshBucket
    rw [if_pos rfl]
  · intro state2
    unfold refreshBucket
    rw [if_pos rfl, if_pos rfl]

theorem validMetricRecord_shape (r : MetricRecord)
    (h : validMetricRecord r = true) :
    (histogramFieldsPopulated r = true → r.metric_type = .histogram) ∧
    (∀ bb bc c, r.bucket_bounds = some bb → r.bucket_counts = some bc →
      r.histogram_count = some c → bb.length = bc.length ∧ bc.sum = c) := by
  constructor
  · intro hpop
    by_contra hne
    unfold validMetricRecord at h
    cases hmt : r.metric_type with
    | histogram => exact hne (by rw [hmt])
    | counter => rw [hmt] at h; simp [hpop] at h
    | gauge => rw [hmt] at h; simp [hpop] at h
  · intro bb bc c hbb hbc hc
    unfold validMetricRecord at h
    cases hmt : r.metric_type with
    | counter =>
        rw [hmt] at h
        simp only [Bool.not_eq_eq_eq_not, Bool.not_true] at h
        unfold histogramFieldsPopulated at h
        rw [hbb] at h
        simp at h
    | gauge =>
        rw [hmt] at h
        simp only [Bool.not_eq_eq_eq_not, Bool.not_true] at h
        unfold histogramFieldsPopulated at h
        rw [hbb] at h
        simp at h
    | histogram =>
        rw [hmt] at h
        have hpop : histogramFieldsPopulated r = true := by
          unfold histogramFieldsPopulated
          rw [hbb]
          simp
        rw [hpop] at h
        simp only [Bool.not_true, Bool.false_or] at h
        rw [hbb, hbc, hc] at h
        cases hs : r.histogram_sum with
        | none => rw [hs] at h; simp at h
        | some s =>
            rw [hs] at h
            cases hmin : r.histogram_min with
            | none => rw [hmin] at h; simp at h
            | some mn =>
                rw [hmin] at h
                cases hmax : r.histogram_max with
                | none => rw [hmax] at h; simp at h
                | some mx =>
                    rw [hmax] at h
                    simpa using h

/-- C8: starting from a table whose rows all pass validation, after any
batch ingestion every stored metric row has its histogram fields populated
only when its type is histogram, and whenever `bucket_bounds`,
`bucket_counts` and `histogram_count` are populated,
`bucket_bounds.length = bucket_counts.length` and
`sum(bucket_counts) = count`. -/
theorem stored_metric_histogram_invariant (table batch : List MetricRecord)
    (hinv : ∀ r ∈ table, validMetricRecord r = true) :
    ∀ r ∈ (ingestMetrics table batch).1,
      (histogramFieldsPopulated r = true → r.metric_type = .histogram) ∧
      (∀ bb bc c, r.bucket_bounds = some bb → r.bucket_counts = some bc →
        r.histogram_count = some c →
        bb.length = bc.length ∧ bc.sum = c) := by
  intro r hr
  unfold ingestMetrics at hr
  simp only [List.mem_append] at hr
  rcases hr with hr | hr
  · exact validMetricRecord_shape r (hinv r hr)
  · exact validMetricRecord_shape r (List.mem_filter.mp hr).2

/-- Concrete instance of `stored_metric_histogram_invariant`: ingesting
`histogramSample` into the empty table stores rows satisfying the histogram
invariant. -/
theorem stored_metric_histogram_invariant_witness :
    ([1, 2] : List ℚ).length = ([3, 4] : List Nat).length ∧
    ([3, 4] : List Nat).sum = 7 :=
  (stored_metric_histogram_invariant [] [histogramSample]
      (by intro r hr; cases hr) histogramSample (by decide)).2
    [1, 2] [3, 4] 7 rfl rfl rfl

theorem retentionCheck_iff (p : Project) :
    retentionCheck p = true ↔
      (1 ≤ p.logs_retention_days ∧ p.logs_retention_days ≤ 365) ∧
      (1 ≤ p.metrics_retention_days ∧ p.metrics_retention_days ≤ 365) ∧
      (1 ≤ p.traces_retention_days ∧ p.traces_retention_days ≤ 90) := by
  simp [retentionCheck, retentionValuesOk, and_assoc]

/-- C10: the defaults are 30/90/14 and in bounds; if every row of the table
satisfies the retention bounds then it still does after any insert or
retention update; and an insert or update whose values violate a bound is
rejected and leaves the table unchanged. -/
theorem project_retention_bounds (tbl : List Project) (p : Project)
    (pid : List Char) (l m t : Int)
    (hinv : ∀ q ∈ tbl, retentionCheck q = true) :
    ((defaultProject p.id p.organization_id p.name).logs_retention_days = 30 ∧
     (defaultProject p.id p.organization_id p.name).metrics_retention_days = 90 ∧
     (defaultProject p.id p.organization_id p.name).traces_retention_days = 14 ∧
     retentionCheck (defaultProject p.id p.organization_id p.name) = true) ∧
    (∀ q ∈ (insertProject tbl p).1,
      (1 ≤ q.logs_retention_days ∧ q.logs_retention_days ≤ 365) ∧
      (1 ≤ q.metrics_retention_days ∧ q.metrics_retention_days ≤ 365) ∧
      (1 ≤ q.traces_retention_days ∧ q.traces_retention_days ≤ 90)) ∧
    (retentionCheck p = false → insertProject tbl p = (tbl, false)) ∧
    (∀ q ∈ (updateProjectRetention tbl pid l m t).1,
      (1 ≤ q.logs_retention_days ∧ q.logs_retention_days ≤ 365) ∧
      (1 ≤ q.metrics_retention_days ∧ q.metrics_retention_days ≤ 365) ∧
      (1 ≤ q.traces_retention_days ∧ q.traces_retention_days ≤ 90)) ∧
    (retentionValuesOk l m t = false →
      updateProjectRetention tbl pid l m t = (tbl, false)) := by
  refine ⟨⟨rfl, rfl, rfl, rfl⟩, ?_, ?_, ?_, ?_⟩
  · intro q hq
    unfold insertProject at hq
    by_cases hc : retentionCheck p = true
    · rw [if_pos hc] at hq
      simp only [List.mem_append, List.mem_singleton] at hq
      rcases hq with hq | hq
      · exact (retentionCheck_iff q).mp (hinv q hq)
      · subst hq; exact (retentionCheck_iff q).mp hc
    · rw [if_neg hc] at hq
      exact (retentionCheck_iff q).mp (hinv q hq)
  · intro hfail
    unfold insertProject
    rw [if_neg (by simp [hfail])]
  · intro q hq
    unfold updateProjectRetention at hq
    by_cases hc : retentionValuesOk l m t = true
    · rw [if_pos hc] at hq
      simp only [List.mem_map] at hq
      obtain ⟨r, hr, hq⟩ := hq
      by_cases hid : r.id = pid
      · rw [if_pos hid] at hq
        subst hq
        simp only [retentionValuesOk, Bool.and_eq_true, decide_eq_true_eq] at hc
        simp only []
        tauto
      · rw [if_neg hid] at hq
        subst hq
        exact (retentionCheck_iff r).mp (hinv r hr)
    · rw [if_neg hc] at hq
      exact (retentionCheck_iff q).mp (hinv q hq)
  · intro hfail
    unfold updateProjectRetention
    rw [if_neg (by simp [hfail])]

/-- Concrete instance of `project_retention_bounds`: on the empty table, with
an in-bounds project and an out-of-bounds update (traces 120 > 90). -/
theorem project_retention_bounds_witness :
    updateProjectRetention [] [] 30 90 120 = ([], false) :=
  (project_retention_bounds [] (defaultProject [] [] []) [] 30 90 120
    (by intro q hq; cases hq)).2.2.2.2 (by decide)

/-- C3: a partition whose upper time bound is more than the owning project's
per-stream `retention_days` in the past is present before the maintenance
cycle and absent afterwards — indeed every partition surviving the cycle is
within its retention window. -/
theorem maintenance_deletes_expired (projects : List Project) (now : Nat)
    (parts : List Partition) (part : Partition)
    (hmem : part ∈ parts)
    (hexp : pastRetention projects now part = true) :
    part ∈ parts ∧
    part ∉ runMaintenance projects now parts ∧
    ∀ q ∈ runMaintenance projects now parts,
      pastRetention projects now q = false := by
  have hall : ∀ q ∈ runMaintenance projects now parts,
      pastRetention projects now q = false := by
    intro q hq
    unfold runMaintenance at hq
    have := (List.mem_filter.mp hq).2
    simpa using this
  refine ⟨hmem, ?_, hall⟩
  intro habs
  rw [hall part habs] at hexp
  exact absurd hexp (by simp)

/-- Concrete instance of `maintenance_deletes_expired`: at
`now = 32 * daySeconds` the expired partition is deleted by the cycle. -/
theorem maintenance_deletes_expired_witness :
    expiredPartSample ∈ [expiredPartSample] ∧
    expiredPartSample ∉
      runMaintenance [projectSample] (32 * daySeconds) [expiredPartSample] ∧
    ∀ q ∈ runMaintenance [projectSample] (32 * daySeconds)
      [expiredPartSample],
      pastRetention [projectSample] (32 * daySeconds) q = false :=
  maintenance_deletes_expired [projectSample] (32 * daySeconds)
    [expiredPartSample] expiredPartSample (by decide) (by decide)

/-- C6: a partition older than its stream's grace period is marked
compressed by the compression step; the step is a no-op on an
already-compressed partition (so the mark is applied exactly once), one
whole compression pass is idempotent, and every grace period lies between
1 and 7 days (`logs` 7 days, `metrics` 1 day, `spans` 3 days). -/
theorem compression_marks_exactly_once (now : Nat) (parts : List Partition)
    (part : Partition)
    (hold : part.endTime + graceSeconds part.stream < now) :
    (compressOne now part).compressed = true ∧
    (part.compressed = true → compressOne now part = part) ∧
    compressOne now (compressOne now part) = compressOne now part ∧
    (parts.map (compressOne now)).map (compressOne now) =
      parts.map (compressOne now) ∧
    graceSeconds .logs = 7 * daySeconds ∧
    graceSeconds .metrics = daySeconds ∧
    graceSeconds .spans = 3 * daySeconds ∧
    ∀ s : Stream, daySeconds ≤ graceSeconds s ∧
      graceSeconds s ≤ 7 * daySeconds := by
  have hone : ∀ q : Partition, compressOne now (compressOne now q) =
      compressOne now q := by
    intro q
    unfold compressOne
    by_cases hc : q.compressed = true
    · simp [hc]
    · simp only [Bool.not_eq_true] at hc
      by_cases hage : q.endTime + graceSeconds q.stream < now
      · simp [hc, hage]
      · simp [hc, hage]
  refine ⟨?_, ?_, hone part, ?_, rfl, rfl, rfl, ?_⟩
  · unfold compressOne
    by_cases hc : part.compressed = true
    · simp [hc]
    · simp only [Bool.not_eq_true] at hc
      simp [hc, hold]
  · intro hc
    unfold compressOne
    simp [hc]
  · rw [List.map_map]
    apply List.map_congr_left
    intro q _
    exact hone q
  · intro s
    cases s <;> simp [graceSeconds, daySeconds]

/-- Concrete instance of `compression_marks_exactly_once`: the expired
sample partition is older than the 7-day logs grace period at
`now = 9 * daySeconds` and gets marked compressed. -/
theorem compression_marks_exactly_once_witness :
    (compressOne (9 * daySeconds) expiredPartSample).compressed = true :=
  (compression_marks_exactly_once (9 * daySeconds) [] expiredPartSample
    (by decide)).1

theorem openFiring_none_firingCount (rid : List Char) (alerts : List Alert)
    (h : openFiring rid alerts = none) : firingCount rid alerts = 0 := by
  unfold firingCount
  rw [List.length_eq_zero]
  rw [List.filter_eq_nil_iff]
  intro a ha
  have := List.find?_eq_none.mp h a ha
  simpa using this

/-- C1: each evaluation preserves "at most one open Firing alert row per
rule"; while the condition continues to hold over an existing Firing alert
the state is unchanged (no new row, no duplicate notification); and the
value sequence `[5, 15, 15, 3]` against the enabled `gt 10` rule yields
exactly one alert row — Firing created at the second evaluation with
`trigger_value = 15`, unchanged by the third, Resolved at the fourth with
`resolved_at` recorded — and exactly one firing plus one resolution
notification. -/
theorem alert_evaluator_state_machine :
    (∀ (rule : AlertRule) (value : ℚ) (now : Nat) (st : EvalState),
      firingCount rule.id st.alerts ≤ 1 →
      firingCount rule.id (evaluateRule rule value now st).alerts ≤ 1) ∧
    (∀ (rule : AlertRule) (value : ℚ) (now : Nat) (st : EvalState),
      rule.is_enabled = true →
      condHolds rule.threshold_operator value rule.threshold_value = true →
      (openFiring rule.id st.alerts).isSome = true →
      evaluateRule rule value now st = st) ∧
    evalSeq gtRuleSample 1 ⟨[], []⟩ [5, 15, 15] =
      evalSeq gtRuleSample 1 ⟨[], []⟩ [5, 15] ∧
    evalSeq gtRuleSample 1 ⟨[], []⟩ [5, 15, 15, 3] =
      ⟨[⟨gtRuleSample.id, .resolved, 2, some 4, 15⟩],
       [⟨gtRuleSample.id, .firing, 15⟩, ⟨gtRuleSample.id, .resolved, 3⟩]⟩ := by
  refine ⟨?_, ?_, by decide, by decide⟩
  · intro rule value now st h
    unfold evaluateRule
    by_cases hen : rule.is_enabled
    · rw [if_neg (by simp [hen])]
      by_cases hc :
          condHolds rule.threshold_operator value rule.threshold_value = true
      · rw [if_pos hc]
        cases hof : openFiring rule.id st.alerts with
        | some a => exact h
        | none =>
            have h0 := openFiring_none_firingCount rule.id st.alerts hof
            unfold firingCount at h0 ⊢
            rw [List.filter_append, List.length_append, h0]
            simp [isOpenFiring]
      · rw [if_neg hc]
        cases hof : openFiring rule.id st.alerts with
        | none => exact h
        | some a =>
            unfold firingCount
            have hnil : (st.alerts.map fun b =>
                if isOpenFiring rule.id b then
                  { b with status := .resolved, resolved_at := some now }
                else b).filter (isOpenFiring rule.id) = [] := by
              rw [List.filter_eq_nil_iff]
              intro b hb
              simp only [List.mem_map] at hb
              obtain ⟨b0, _, hb0⟩ := hb
              by_cases hfb : isOpenFiring rule.id b0 = true
              · rw [if_pos hfb] at hb0
                subst hb0
                simp [isOpenFiring]
              · rw [if_neg hfb] at hb0
                subst hb0
                simp [hfb]
            rw [hnil]
            simp
    · rw [if_pos (by simp [hen])]
      exact h
  · intro rule value now st hen hc hopen
    unfold evaluateRule
    rw [if_neg (by simp [hen]), if_pos hc]
    cases hof : openFiring rule.id st.alerts with
    | some a => rfl
    | none => rw [hof] at hopen; exact absurd hopen (by simp)

/-- Concrete instance of `alert_evaluator_state_machine`: one firing
evaluation from the empty state leaves at most one open Firing row. -/
theorem alert_evaluator_state_machine_witness :
    firingCount gtRuleSample.id
      (evaluateRule gtRuleSample 15 2 ⟨[], []⟩).alerts ≤ 1 :=
  alert_evaluator_state_machine.1 gtRuleSample 15 2 ⟨[], []⟩ (by decide)

end Altenia
